import Mathlib

/-!
Verification of the serial command-ingestion front end of the BioloidCControl
firmware (serial.c) against its natural-language specification.

The C code is shallowly embedded: machine bytes are modelled as `Nat` values
(on this AVR build `char` is unsigned, so stored bytes are their unsigned
values 0-255); the `uint8` shared variables are modelled with explicit
`% 256` where an overflow can occur; the fixed-size circular storage
`gbSerialBuffer` is modelled as a function `Nat → Nat` together with the
`head`/`tail` indices and the capacity `MAXNUM_SERIALBUFF` (kept as a field
`cap`, since the numeric macro lives in a header outside the sources);
bytes written out the USART are collected into `List Nat` values.
-/

namespace BioloidSerial

/-- The receive ring buffer: `gbSerialBuffer` (storage), `gbSerialBufferHead`,
`gbSerialBufferTail`, plus the capacity macro `MAXNUM_SERIALBUFF` as `cap`. -/
structure RingBuffer where
  cap : Nat
  data : Nat → Nat
  head : Nat
  tail : Nat

/-- Well-formedness: both indices stay inside the storage (the C code keeps
them in `0 .. MAXNUM_SERIALBUFF-1` by the explicit wrap tests). -/
def RingBuffer.WF (b : RingBuffer) : Prop :=
  b.head < b.cap ∧ b.tail < b.cap

/-- Point update of the storage array (`gbSerialBuffer[i] = v`). -/
def setStore (f : Nat → Nat) (i v : Nat) : Nat → Nat :=
  fun j => if j = i then v else f j

/-- The buffer right after `serial_init`: zeroed storage, `head = tail = 0`. -/
def emptyBuf (n : Nat) : RingBuffer :=
  { cap := n, data := fun _ => 0, head := 0, tail := 0 }

/-- `serial_get_qstate` (serial.c:276-292): number of bytes in the buffer,
computed by cases on the relative position of head and tail. -/
def serial_get_qstate (b : RingBuffer) : Nat :=
  if b.head = b.tail then 0
  else if b.head < b.tail then b.tail - b.head
  else b.cap - (b.head - b.tail)

/-- `serial_put_queue` (serial.c:295-310): if the buffer holds `cap - 1`
bytes the byte is ignored; otherwise it is stored at `tail` and `tail`
advances, wrapping from `cap - 1` back to 0. -/
def serial_put_queue (b : RingBuffer) (d : Nat) : RingBuffer :=
  if serial_get_qstate b = b.cap - 1 then b
  else if b.tail = b.cap - 1 then
    { b with data := setStore b.data b.tail d, tail := 0 }
  else
    { b with data := setStore b.data b.tail d, tail := b.tail + 1 }

/-- `serial_get_queue` (serial.c:313-332): on an empty buffer return 0xFF and
leave the state alone; otherwise return the byte at `head` and advance `head`,
wrapping from `cap - 1` back to 0. -/
def serial_get_queue (b : RingBuffer) : Nat × RingBuffer :=
  if b.head = b.tail then (255, b)
  else if b.head = b.cap - 1 then (b.data b.head, { b with head := 0 })
  else (b.data b.head, { b with head := b.head + 1 })

/-- `std_putchar` (serial.c:336-353): bytes actually sent out the USART for
one character; a newline is expanded to the CR+LF pair. -/
def std_putchar (c : Nat) : List Nat :=
  if c = 10 then [13, 10] else [c]

/-- Bytes sent for a whole character sequence (a `printf` body goes out one
character at a time through `std_putchar`). -/
def putStr (cs : List Nat) : List Nat :=
  cs.foldr (fun c acc => std_putchar c ++ acc) []

/-- ASCII byte list of a string literal. -/
def tok (s : String) : List Nat :=
  s.toList.map Char.toNat

/-- Decimal digits of a number as ASCII bytes (the `%i` conversion). -/
def decBytes (n : Nat) : List Nat :=
  tok (Nat.repr n)

/-- The shared state the serial module reads and writes: the ring buffer plus
the extern globals `bioloid_command`, `last_bioloid_command`,
`flag_receive_ready`, `current_motion_page`, `last_motion_page`
(serial.c:49-60). -/
structure SysState where
  buf : RingBuffer
  bioloid_command : Nat
  last_bioloid_command : Nat
  flag_receive_ready : Nat
  current_motion_page : Nat
  last_motion_page : Nat

/-- `SIGNAL(USART1_RX_vect)` (serial.c:70-93): the receive interrupt for one
arriving byte `c`. On the terminator `'\r'` (13) it sets the ready flag,
pushes the 0xFF end-of-frame sentinel, and echoes a newline (which
`std_putchar` expands to CR+LF) followed by a space; otherwise it pushes the
byte and echoes it. Returns the new state and the echoed bytes. -/
def USART1_RX_vect (s : SysState) (c : Nat) : SysState × List Nat :=
  if c = 13 then
    ({ s with flag_receive_ready := 1, buf := serial_put_queue s.buf 255 },
      std_putchar 10 ++ std_putchar 32)
  else
    ({ s with buf := serial_put_queue s.buf c }, std_putchar c)

/-- The command table `COMMANDSTR_POINTER` / `COMMANDSTR0..19`
(serial.c:22-47), each token as its 4 ASCII bytes:
"STOP", "WF  ", "WB  ", "WLT ", "WRT ", "WLS ", "WRS ", "WFLS", "WFRS",
"WBLS", "WBRS", "WAL ", "WAR ", "WFLT", "WFRT", "WBLT", "WBRT", "SIT ",
"BAL ", "M   " (the lemma `COMMANDSTR_POINTER_eq_strings` below checks the
byte lists against those string literals). -/
def COMMANDSTR_POINTER : List (List Nat) :=
  [[83,84,79,80], [87,70,32,32], [87,66,32,32], [87,76,84,32], [87,82,84,32],
   [87,76,83,32], [87,82,83,32], [87,70,76,83], [87,70,82,83], [87,66,76,83],
   [87,66,82,83], [87,65,76,32], [87,65,82,32], [87,70,76,84], [87,70,82,84],
   [87,66,76,84], [87,66,82,84], [83,73,84,32], [66,65,76,32], [77,32,32,32]]

/-- `NUMBER_OF_COMMANDS`: the table above has exactly 20 entries. -/
def NUMBER_OF_COMMANDS : Nat := 20

/-- `COMMAND_NOT_FOUND`: the code's comment at serial.c:197 says 0xFF means
no match was found (the macro itself lives in global.h, outside the
sources). -/
def COMMAND_NOT_FOUND : Nat := 255

/-- Modelled from the spec: `COMMAND_MOTIONPAGE` is defined in global.h,
which is not among the sources; the spec only requires it to be a reserved
ordinal distinct from the table ordinals 0-19 and from the not-found
value. -/
def COMMAND_MOTIONPAGE : Nat := 254

/-- The per-character normalization of serial.c:162-174: a lowercase ASCII
letter is converted to upper case (`toupper` subtracts 32 there), anything
else passes through. -/
def normalizeChar (c : Nat) : Nat :=
  if 97 ≤ c ∧ c ≤ 122 then c - 32 else c

/-- Lines 161-176 of `SerialReceiveCommand`: pop four bytes, case-fold each,
and for the second, third and fourth replace the 0xFF sentinel by a blank.
Returns `(c1, c2, c3, c4)` and the buffer after the four pops. Note the
first byte has no sentinel-to-blank substitution in the code. -/
def readCommand (b : RingBuffer) : (Nat × Nat × Nat × Nat) × RingBuffer :=
  let g1 := serial_get_queue b
  let c1 := normalizeChar g1.1
  let g2 := serial_get_queue g1.2
  let c2 := normalizeChar g2.1
  let c2 := if c2 = 255 then 32 else c2
  let g3 := serial_get_queue g2.2
  let c3 := normalizeChar g3.1
  let c3 := if c3 = 255 then 32 else c3
  let g4 := serial_get_queue g3.2
  let c4 := normalizeChar g4.1
  let c4 := if c4 = 255 then 32 else c4
  ((c1, c2, c3, c4), g4.2)

/-- The working token `command[0..3]` built at serial.c:161-176 for the
frame currently in buffer `b`. -/
def commandToken (b : RingBuffer) : List Nat :=
  let r := readCommand b
  [r.1.1, r.1.2.1, r.1.2.2.1, r.1.2.2.2]

/-- The scan loop of serial.c:182-200 over the remaining table entries
`ts` starting at index `i`: the first entry equal to `command` wins and
shifts the old `bioloid_command` into `last_bioloid_command`; reaching the
last entry without a match sets `COMMAND_NOT_FOUND` and leaves
`last_bioloid_command` alone. Returns the new
`(bioloid_command, last_bioloid_command)` pair. -/
def commandScanAux : List (List Nat) → Nat → List Nat → Nat → Nat → Nat × Nat
  | [], _, _, bc, last => (bc, last)
  | t :: rest, i, command, bc, last =>
    if t = command then (i, bc)
    else if rest = [] then (COMMAND_NOT_FOUND, last)
    else commandScanAux rest (i + 1) command bc last

/-- First table index whose token equals `command`, if any (counting from
`i`); a specification-level view of the scan loop used to state when a
frame produces a direct table match. -/
def findTok : List (List Nat) → Nat → List Nat → Option Nat
  | [], _, _ => none
  | t :: rest, i, command =>
    if t = command then some i else findTok rest (i + 1) command

/-- The motion-page special case of serial.c:202-224, given the scan result
`bc`, the four token characters and the current/last motion pages. The
pages live in `uint8` variables, hence the `% 256` on every store. The two
digit tests on `c3` and `c4` are independent `if` statements in the code.
Returns the new `(bioloid_command, current_motion_page, last_motion_page)`. -/
def motionPageCheck (bc c1 c2 c3 c4 cur last : Nat) : Nat × Nat × Nat :=
  if bc = COMMAND_NOT_FOUND then
    if c1 = 77 ∧ (48 ≤ c2 ∧ c2 ≤ 57) then
      let last2 := cur
      let p1 := (c2 - 48) % 256
      let p2 := if 48 ≤ c3 ∧ c3 ≤ 57 then (p1 * 10 % 256 + (c3 - 48)) % 256 else p1
      let p3 := if 48 ≤ c4 ∧ c4 ≤ 57 then (p2 * 10 % 256 + (c4 - 48)) % 256 else p2
      (COMMAND_MOTIONPAGE, p3, last2)
    else (bc, cur, last)
  else (bc, cur, last)

/-- `SerialReceiveCommand` (serial.c:149-237): early return when the ready
flag is clear; otherwise read the 4-character token, flush one further byte,
scan the table, apply the motion-page special case, clear the flag, and
print the acknowledgment. Returns the new state and the printed bytes. -/
def SerialReceiveCommand (s : SysState) : SysState × List Nat :=
  if s.flag_receive_ready = 0 then (s, [])
  else
    let rc := readCommand s.buf
    let c1 := rc.1.1
    let c2 := rc.1.2.1
    let c3 := rc.1.2.2.1
    let c4 := rc.1.2.2.2
    let b5 := (serial_get_queue rc.2).2
    let sc := commandScanAux COMMANDSTR_POINTER 0 [c1, c2, c3, c4]
      s.bioloid_command s.last_bioloid_command
    let mp := motionPageCheck sc.1 c1 c2 c3 c4
      s.current_motion_page s.last_motion_page
    let out :=
      if mp.1 = COMMAND_MOTIONPAGE then
        putStr ([c1, c2, c3, c4] ++ tok " - MotionPageCommand " ++
          decBytes mp.2.1 ++ tok "\n> ")
      else if mp.1 ≠ COMMAND_NOT_FOUND then
        putStr ([c1, c2, c3, c4] ++ tok " - Command # " ++
          decBytes mp.1 ++ tok "\n> ")
      else
        putStr ([c1, c2, c3, c4] ++ tok " \nUnknown Command! \n> ")
    ({ buf := b5, bioloid_command := mp.1, last_bioloid_command := sc.2,
       flag_receive_ready := 0, current_motion_page := mp.2.1,
       last_motion_page := mp.2.2 }, out)

/-- Modelled from the spec for the capacity macro: `MAXNUM_SERIALBUFF` is
defined in serial.h, which is not among the sources; the spec only requires
a fixed capacity, and the `unsigned char` indices make 256 the natural
size. None of the frame-level claims depends on the exact value. -/
def MAXNUM_SERIALBUFF : Nat := 256

/-- The shared state right after `serial_init` (serial.c:131-142): empty
buffer, commands and flag cleared; the motion-page globals start zeroed per
the spec's lifecycle section. -/
def initState : SysState :=
  { buf := emptyBuf MAXNUM_SERIALBUFF, bioloid_command := 0,
    last_bioloid_command := 0, flag_receive_ready := 0,
    current_motion_page := 0, last_motion_page := 0 }

/-- Deliver a byte sequence through the receive interrupt, one byte per
invocation, discarding the echoes. -/
def feedBytes (s : SysState) : List Nat → SysState
  | [] => s
  | c :: cs => feedBytes (USART1_RX_vect s c).1 cs

/-- One complete round trip for a frame: the payload bytes followed by the
`'\r'` terminator arrive through the interrupt, then the dispatcher runs
once. -/
def runFrame (payload : List Nat) : SysState × List Nat :=
  SerialReceiveCommand (feedBytes initState (payload ++ [13]))

/-! ### A list-level model of the ring buffer, for the queue claims -/

/-- Abstract contents of the ring buffer: the occupied bytes read in pop
order starting at `head`, with the wrap past the end of the storage made
explicit. -/
def absBuf (b : RingBuffer) : List Nat :=
  (List.range (serial_get_qstate b)).map (fun i =>
    if b.head + i < b.cap then b.data (b.head + i) else b.data (b.head + i - b.cap))

/-- One queue operation: enqueue a byte (`serial_put_queue`) or dequeue one
(`serial_get_queue`). -/
inductive QOp where
  | push : Nat → QOp
  | pop : QOp

/-- Run a sequence of queue operations against the ring buffer, collecting
the bytes the pops return. -/
def runOps : RingBuffer → List QOp → RingBuffer × List Nat
  | b, [] => (b, [])
  | b, QOp.push d :: ops => runOps (serial_put_queue b d) ops
  | b, QOp.pop :: ops =>
    let g := serial_get_queue b
    let r := runOps g.2 ops
    (r.1, g.1 :: r.2)

/-- The same operations run against a plain list queue. -/
def modelRun : List Nat → List QOp → List Nat × List Nat
  | q, [] => (q, [])
  | q, QOp.push d :: ops => modelRun (q ++ [d]) ops
  | q, QOp.pop :: ops =>
    let r := modelRun q.tail ops
    (r.1, q.headD 0 :: r.2)

/-- An operation sequence is within capacity for a buffer of capacity
`cap` currently holding `len` bytes: every push happens strictly below the
`cap - 1` fill bound (the code's full condition) and every pop happens on a
nonempty queue. -/
def ValidB (cap : Nat) : Nat → List QOp → Bool
  | _, [] => true
  | len, QOp.push _ :: ops => decide (len < cap - 1) && ValidB cap (len + 1) ops
  | len, QOp.pop :: ops => decide (0 < len) && ValidB cap (len - 1) ops

/-- Number of pushes in an operation sequence. -/
def countPush : List QOp → Nat
  | [] => 0
  | QOp.push _ :: ops => countPush ops + 1
  | QOp.pop :: ops => countPush ops

/-- Number of pops in an operation sequence. -/
def countPop : List QOp → Nat
  | [] => 0
  | QOp.push _ :: ops => countPop ops
  | QOp.pop :: ops => countPop ops + 1

/-- The pushed bytes of an operation sequence, in push order. -/
def pushedVals : List QOp → List Nat
  | [] => []
  | QOp.push d :: ops => d :: pushedVals ops
  | QOp.pop :: ops => pushedVals ops

/-- Sanity check: the numeric byte lists of the command table are exactly
the ASCII contents of the source's string literals. -/
theorem COMMANDSTR_POINTER_eq_strings :
    COMMANDSTR_POINTER =
      [tok "STOP", tok "WF  ", tok "WB  ", tok "WLT ", tok "WRT ",
       tok "WLS ", tok "WRS ", tok "WFLS", tok "WFRS", tok "WBLS",
       tok "WBRS", tok "WAL ", tok "WAR ", tok "WFLT", tok "WFRT",
       tok "WBLT", tok "WBRT", tok "SIT ", tok "BAL ", tok "M   "] := by
  decide

/-- Case folding leaves a decimal digit unchanged. -/
theorem normalizeChar_digit {c : Nat} (h1 : 48 ≤ c) (h2 : c ≤ 57) :
    normalizeChar c = c := by
  unfold normalizeChar
  rw [if_neg]
  omega

/-- Case folding never produces the 0xFF sentinel from another byte. -/
theorem normalizeChar_ne_255 {c : Nat} (h : c ≠ 255) :
    normalizeChar c ≠ 255 := by
  unfold normalizeChar
  split <;> omega

/-! ## Claims about single operations and the idle dispatcher -/

/-- C2, counterexample: for the frame `"M\r"` the dispatcher sets
`bioloid_command` to 19 — the padded token `"M   "` is matched directly by
the table scan — and not to the reserved not-found ordinal, contrary to the
claim that `M` alone falls through to not-found. -/
theorem C2_counterexample :
    (runFrame [77]).1.bioloid_command = 19 ∧
      (runFrame [77]).1.bioloid_command ≠ COMMAND_NOT_FOUND := by
  constructor
  · rfl
  · decide

/-- C2, amended: for the frame `"M\r"` (the letter M alone), the popped
token is padded to `"M   "`, which is exactly table entry 19, so the scan
finds a direct match at ordinal 19 and `current_command` becomes 19 (the
old `current_command` moves into `previous_command`, as only a direct match
does); the frame does not fall through to the not-found ordinal. -/
theorem C2_amended :
    commandToken (feedBytes initState [77, 13]).buf = tok "M   " ∧
      findTok COMMANDSTR_POINTER 0 (tok "M   ") = some 19 ∧
      (runFrame [77]).1.bioloid_command = 19 ∧
      (runFrame [77]).1.last_bioloid_command = initState.bioloid_command := by
  refine ⟨rfl, rfl, rfl, rfl⟩

/-- C5, counterexample: on receiving the terminator byte 13 the interrupt
handler echoes the three bytes CR, LF, space (serial.c:82-84 sends a
newline, expanded to CR+LF, and then a space), not exactly the two-byte
CR+LF sequence the claim states. -/
theorem C5_counterexample :
    (USART1_RX_vect initState 13).2 = [13, 10, 32] ∧
      (USART1_RX_vect initState 13).2 ≠ [13, 10] := by
  exact ⟨rfl, by decide⟩

/-- C5, amended: for every shared state, a received terminator byte 13 makes
the interrupt handler emit exactly the three bytes carriage-return,
line-feed, space (the trailing space comes from the extra `std_putchar(' ')`
at serial.c:84). -/
theorem C5_amended (s : SysState) :
    (USART1_RX_vect s 13).2 = [13, 10, 32] := rfl

/-- C8: popping from an empty ring buffer (head equal to tail) returns the
0xFF sentinel and leaves the buffer — head, tail, and stored bytes —
completely unchanged. -/
theorem C8_pop_empty (b : RingBuffer) (h : b.head = b.tail) :
    serial_get_queue b = (255, b) := by
  unfold serial_get_queue
  simp [h]

/-- C8, witness at the concrete empty buffer of capacity 8. -/
theorem C8_pop_empty_witness :
    serial_get_queue (emptyBuf 8) = (255, emptyBuf 8) :=
  C8_pop_empty (emptyBuf 8) rfl

/-- C9: when the ready flag is clear the dispatcher is a no-op — the whole
shared state (commands, pages, flag, ring buffer) is returned unchanged and
no bytes are printed. -/
theorem C9_idle_noop (s : SysState) (h : s.flag_receive_ready = 0) :
    SerialReceiveCommand s = (s, []) := by
  unfold SerialReceiveCommand
  simp [h]

/-- C9, witness at the freshly initialized state, whose flag is clear. -/
theorem C9_idle_noop_witness :
    SerialReceiveCommand initState = (initState, []) :=
  C9_idle_noop initState rfl

/-! ## Motion-page parsing and token padding claims -/

/-- C1, counterexample: for the frame `"M2X4\r"` the dispatcher sets the
motion page to 24, not 2 — the digit at position 4 is examined and
accumulated even though position 3 holds the non-digit `X`, because
serial.c:212 and serial.c:218 are two independent `if` statements. -/
theorem C1_counterexample :
    (runFrame [77, 50, 88, 52]).1.current_motion_page = 24 ∧
      (runFrame [77, 50, 88, 52]).1.current_motion_page ≠ 2 := by
  exact ⟨rfl, by decide⟩

/-- C1, amended: digit accumulation does not stop at the first non-digit:
positions 3 and 4 are tested independently, so for every frame `M`, digit,
non-digit, digit the resulting motion page is formed from both digits
(`'M2X4\r'` yields 24, not 2), and the command becomes the motion-page
ordinal. -/
theorem C1_amended (d2 c3 d4 : Nat)
    (h2l : 48 ≤ d2) (h2u : d2 ≤ 57) (h4l : 48 ≤ d4) (h4u : d4 ≤ 57)
    (h3nd : ¬(48 ≤ c3 ∧ c3 ≤ 57)) (h3cr : c3 ≠ 13) :
    (runFrame [77, d2, c3, d4]).1.bioloid_command = COMMAND_MOTIONPAGE ∧
      (runFrame [77, d2, c3, d4]).1.current_motion_page =
        10 * (d2 - 48) + (d4 - 48) := by
  have hd2 : ¬(d2 = 13) := by omega
  have hd4 : ¬(d4 = 13) := by omega
  have h32 : ¬((32:Nat) = d2) := by omega
  have h255 : ¬(d2 = 255) := by omega
  have h255' : ¬(d4 = 255) := by omega
  have hn2 : normalizeChar d2 = d2 := normalizeChar_digit h2l h2u
  have hn4 : normalizeChar d4 = d4 := normalizeChar_digit h4l h4u
  have hn77 : normalizeChar 77 = 77 := by decide
  have hXnd : ¬(48 ≤ (if normalizeChar c3 = 255 then (32:Nat) else normalizeChar c3) ∧
      (if normalizeChar c3 = 255 then (32:Nat) else normalizeChar c3) ≤ 57) := by
    unfold normalizeChar
    split_ifs <;> omega
  constructor
  · simp [runFrame, feedBytes, USART1_RX_vect, initState, emptyBuf, MAXNUM_SERIALBUFF,
      serial_put_queue, serial_get_qstate, SerialReceiveCommand, readCommand,
      serial_get_queue, setStore, commandScanAux, COMMANDSTR_POINTER,
      motionPageCheck, COMMAND_NOT_FOUND, COMMAND_MOTIONPAGE,
      hd2, hd4, h3cr, h32, h255, h255', hn2, hn4, hn77, hXnd, h2l, h2u, h4l, h4u]
  · simp [runFrame, feedBytes, USART1_RX_vect, initState, emptyBuf, MAXNUM_SERIALBUFF,
      serial_put_queue, serial_get_qstate, SerialReceiveCommand, readCommand,
      serial_get_queue, setStore, commandScanAux, COMMANDSTR_POINTER,
      motionPageCheck, COMMAND_NOT_FOUND, COMMAND_MOTIONPAGE,
      hd2, hd4, h3cr, h32, h255, h255', hn2, hn4, hn77, hXnd, h2l, h2u, h4l, h4u]
    omega

/-- C1, witness: the amended theorem instantiated at the frame `"M2X4\r"`
(digits `'2'` = 50, `'4'` = 52, non-digit `'X'` = 88). -/
theorem C1_amended_witness :
    (runFrame [77, 50, 88, 52]).1.bioloid_command = COMMAND_MOTIONPAGE ∧
      (runFrame [77, 50, 88, 52]).1.current_motion_page =
        10 * (50 - 48) + (52 - 48) :=
  C1_amended 50 88 52 (by decide) (by decide) (by decide) (by decide)
    (by decide) (by decide)

/-- C3, counterexample: for the empty frame (terminator only) the first
popped byte is the 0xFF sentinel, yet the working token keeps the raw 255
in its first position — serial.c:161-163 has no sentinel-to-blank
substitution for the first character — so the token is not the all-blank
4-character string the claim requires. -/
theorem C3_counterexample :
    commandToken (feedBytes initState [13]).buf = [255, 32, 32, 32] ∧
      commandToken (feedBytes initState [13]).buf ≠ [32, 32, 32, 32] := by
  exact ⟨rfl, by decide⟩

/-- C3, amended: the sentinel-to-blank substitution applies to token
positions 2-4 only. For a frame of 1-3 payload characters every remaining
position is blanked, giving the fixed-width space-padded token of the
case-folded payload; but for the empty frame the first position keeps the
raw 0xFF sentinel instead of a space. -/
theorem C3_amended (p : List Nat) (hlen : p.length ≤ 3)
    (hb : ∀ x ∈ p, x ≠ 13 ∧ x ≠ 255) :
    commandToken (feedBytes initState (p ++ [13])).buf =
      if p = [] then [255, 32, 32, 32]
      else p.map normalizeChar ++ List.replicate (4 - p.length) 32 := by
  match p with
  | [] => decide
  | [a] =>
    have ha := hb a (by simp)
    have hn255 : normalizeChar 255 = 255 := by decide
    simp [feedBytes, USART1_RX_vect, initState, emptyBuf, MAXNUM_SERIALBUFF,
      serial_put_queue, serial_get_qstate, commandToken, readCommand,
      serial_get_queue, setStore, ha.1, hn255, List.replicate]
  | [a, b] =>
    have ha := hb a (by simp)
    have hbb := hb b (by simp)
    have hnb : ¬(normalizeChar b = 255) := normalizeChar_ne_255 hbb.2
    have hn255 : normalizeChar 255 = 255 := by decide
    simp [feedBytes, USART1_RX_vect, initState, emptyBuf, MAXNUM_SERIALBUFF,
      serial_put_queue, serial_get_qstate, commandToken, readCommand,
      serial_get_queue, setStore, ha.1, hbb.1, hnb, hn255, List.replicate]
  | [a, b, c] =>
    have ha := hb a (by simp)
    have hbb := hb b (by simp)
    have hc := hb c (by simp)
    have hnb : ¬(normalizeChar b = 255) := normalizeChar_ne_255 hbb.2
    have hnc : ¬(normalizeChar c = 255) := normalizeChar_ne_255 hc.2
    have hn255 : normalizeChar 255 = 255 := by decide
    simp [feedBytes, USART1_RX_vect, initState, emptyBuf, MAXNUM_SERIALBUFF,
      serial_put_queue, serial_get_qstate, commandToken, readCommand,
      serial_get_queue, setStore, ha.1, hbb.1, hc.1, hnb, hnc, hn255, List.replicate]
  | a :: b :: c :: d :: rest =>
    simp at hlen

/-- C3, witness: the amended theorem instantiated at the 3-character frame
`"SIT\r"` (bytes 83, 73, 84). -/
theorem C3_amended_witness :
    commandToken (feedBytes initState ([83, 73, 84] ++ [13])).buf =
      if ([83, 73, 84] : List Nat) = [] then [255, 32, 32, 32]
      else [83, 73, 84].map normalizeChar ++
        List.replicate (4 - [83, 73, 84].length) 32 :=
  C3_amended [83, 73, 84] (by decide) (by decide)

/-- C4, counterexample: `current_motion_page` is an 8-bit variable, so the
claimed exactness over the stated 0-999 range fails: the frame `"M300\r"`
stores 44 (300 mod 256), not 300, even though the motion-page ordinal is
set. -/
theorem C4_counterexample :
    (runFrame [77, 51, 48, 48]).1.bioloid_command = COMMAND_MOTIONPAGE ∧
      (runFrame [77, 51, 48, 48]).1.current_motion_page = 44 ∧
      (runFrame [77, 51, 48, 48]).1.current_motion_page ≠ 300 := by
  exact ⟨rfl, rfl, by decide⟩

/-- C4, amended: for every frame of `M` followed by one, two or three
decimal digits, the dispatcher sets the motion-page ordinal and stores the
digits' base-10 value reduced modulo 256 (so the value is exact on 0-255,
covering `'M5\r'` → 5, `'M24\r'` → 24, `'M243\r'` → 243, while 256-999
wrap); `'MX\r'` yields the not-found ordinal and leaves the page alone. -/
theorem C4_amended (d2 d3 d4 : Nat)
    (h2l : 48 ≤ d2) (h2u : d2 ≤ 57) (h3l : 48 ≤ d3) (h3u : d3 ≤ 57)
    (h4l : 48 ≤ d4) (h4u : d4 ≤ 57) :
    ((runFrame [77, d2]).1.bioloid_command = COMMAND_MOTIONPAGE ∧
      (runFrame [77, d2]).1.current_motion_page = d2 - 48) ∧
    ((runFrame [77, d2, d3]).1.bioloid_command = COMMAND_MOTIONPAGE ∧
      (runFrame [77, d2, d3]).1.current_motion_page =
        10 * (d2 - 48) + (d3 - 48)) ∧
    ((runFrame [77, d2, d3, d4]).1.bioloid_command = COMMAND_MOTIONPAGE ∧
      (runFrame [77, d2, d3, d4]).1.current_motion_page =
        (100 * (d2 - 48) + 10 * (d3 - 48) + (d4 - 48)) % 256) ∧
    ((runFrame [77, 88]).1.bioloid_command = COMMAND_NOT_FOUND ∧
      (runFrame [77, 88]).1.current_motion_page = 0) := by
  have hd2 : ¬(d2 = 13) := by omega
  have hd3 : ¬(d3 = 13) := by omega
  have hd4 : ¬(d4 = 13) := by omega
  have h32 : ¬((32:Nat) = d2) := by omega
  have h2_255 : ¬(d2 = 255) := by omega
  have h3_255 : ¬(d3 = 255) := by omega
  have h4_255 : ¬(d4 = 255) := by omega
  have hn2 : normalizeChar d2 = d2 := normalizeChar_digit h2l h2u
  have hn3 : normalizeChar d3 = d3 := normalizeChar_digit h3l h3u
  have hn4 : normalizeChar d4 = d4 := normalizeChar_digit h4l h4u
  have hn77 : normalizeChar 77 = 77 := by decide
  have hn255 : normalizeChar 255 = 255 := by decide
  refine ⟨⟨?_, ?_⟩, ⟨?_, ?_⟩, ⟨?_, ?_⟩, by decide, by decide⟩ <;>
  · simp [runFrame, feedBytes, USART1_RX_vect, initState, emptyBuf, MAXNUM_SERIALBUFF,
      serial_put_queue, serial_get_qstate, SerialReceiveCommand, readCommand,
      serial_get_queue, setStore, commandScanAux, COMMANDSTR_POINTER,
      motionPageCheck, COMMAND_NOT_FOUND, COMMAND_MOTIONPAGE,
      hd2, hd3, hd4, h32, h2_255, h3_255, h4_255, hn2, hn3, hn4, hn77, hn255,
      h2l, h2u, h3l, h3u, h4l, h4u]
    try omega

/-- C4, witness: the amended theorem instantiated at the digits `'5'`,
`'4'`, `'3'` (frames `"M5\r"`, `"M54\r"`, `"M543\r"` and the concrete
`"MX\r"` case). -/
theorem C4_amended_witness :
    (((runFrame [77, 53]).1.bioloid_command = COMMAND_MOTIONPAGE ∧
      (runFrame [77, 53]).1.current_motion_page = 53 - 48) ∧
    ((runFrame [77, 53, 52]).1.bioloid_command = COMMAND_MOTIONPAGE ∧
      (runFrame [77, 53, 52]).1.current_motion_page =
        10 * (53 - 48) + (52 - 48)) ∧
    ((runFrame [77, 53, 52, 51]).1.bioloid_command = COMMAND_MOTIONPAGE ∧
      (runFrame [77, 53, 52, 51]).1.current_motion_page =
        (100 * (53 - 48) + 10 * (52 - 48) + (51 - 48)) % 256) ∧
    ((runFrame [77, 88]).1.bioloid_command = COMMAND_NOT_FOUND ∧
      (runFrame [77, 88]).1.current_motion_page = 0)) :=
  C4_amended 53 52 51 (by decide) (by decide) (by decide) (by decide)
    (by decide) (by decide)

theorem qstate_le {b : RingBuffer} (hwf : b.WF) :
    serial_get_qstate b ≤ b.cap - 1 := by
  obtain ⟨h1, h2⟩ := hwf
  unfold serial_get_qstate
  split_ifs <;> omega

theorem qstate_zero_iff {b : RingBuffer} (hwf : b.WF) :
    serial_get_qstate b = 0 ↔ b.head = b.tail := by
  obtain ⟨h1, h2⟩ := hwf
  unfold serial_get_qstate
  split_ifs <;> omega

theorem put_cap (b : RingBuffer) (d : Nat) :
    (serial_put_queue b d).cap = b.cap := by
  unfold serial_put_queue
  split_ifs <;> rfl

theorem put_head (b : RingBuffer) (d : Nat) :
    (serial_put_queue b d).head = b.head := by
  unfold serial_put_queue
  split_ifs <;> rfl

theorem put_data {b : RingBuffer} (d : Nat)
    (hnf : serial_get_qstate b ≠ b.cap - 1) :
    (serial_put_queue b d).data = setStore b.data b.tail d := by
  unfold serial_put_queue
  split_ifs <;> first | rfl | exact absurd (by assumption) hnf

theorem put_qstate {b : RingBuffer} (d : Nat) (hwf : b.WF)
    (hnf : serial_get_qstate b ≠ b.cap - 1) :
    serial_get_qstate (serial_put_queue b d) = serial_get_qstate b + 1 := by
  obtain ⟨h1, h2⟩ := hwf
  unfold serial_get_qstate at hnf
  simp only [serial_put_queue, serial_get_qstate]
  split_ifs at * <;> simp_all <;> omega

theorem put_WF {b : RingBuffer} (d : Nat) (hwf : b.WF) :
    (serial_put_queue b d).WF := by
  obtain ⟨h1, h2⟩ := hwf
  simp only [serial_put_queue, RingBuffer.WF]
  split_ifs <;> constructor <;> first | omega | (simp; omega)

theorem put_full {b : RingBuffer} (d : Nat)
    (hf : serial_get_qstate b = b.cap - 1) :
    serial_put_queue b d = b := by
  unfold serial_put_queue
  rw [if_pos hf]

theorem absBuf_length (b : RingBuffer) :
    (absBuf b).length = serial_get_qstate b := by
  simp [absBuf]

theorem wrapIdx_ne_tail {b : RingBuffer} (hwf : b.WF) {i : Nat}
    (hi : i < serial_get_qstate b) :
    (if b.head + i < b.cap then b.head + i else b.head + i - b.cap) ≠ b.tail := by
  obtain ⟨h1, h2⟩ := hwf
  unfold serial_get_qstate at hi
  split_ifs at * <;> omega

theorem absBuf_put {b : RingBuffer} (d : Nat) (hwf : b.WF)
    (hnf : serial_get_qstate b ≠ b.cap - 1) :
    absBuf (serial_put_queue b d) = absBuf b ++ [d] := by
  have h1 := hwf.1
  have h2 := hwf.2
  unfold absBuf
  rw [put_qstate d hwf hnf, put_head, put_cap, put_data d hnf,
    List.range_succ, List.map_append, List.map_singleton]
  congr 1
  · apply List.map_congr_left
    intro i hi
    rw [List.mem_range] at hi
    have hne := wrapIdx_ne_tail hwf hi
    unfold setStore
    split_ifs at * <;> first | rfl | omega
  · unfold setStore serial_get_qstate at *
    split_ifs at * <;> first | rfl | omega

theorem get_cap (b : RingBuffer) : (serial_get_queue b).2.cap = b.cap := by
  unfold serial_get_queue
  split_ifs <;> rfl

theorem get_data (b : RingBuffer) : (serial_get_queue b).2.data = b.data := by
  unfold serial_get_queue
  split_ifs <;> rfl

theorem get_tail (b : RingBuffer) : (serial_get_queue b).2.tail = b.tail := by
  unfold serial_get_queue
  split_ifs <;> rfl

theorem get_val {b : RingBuffer} (hne : b.head ≠ b.tail) :
    (serial_get_queue b).1 = b.data b.head := by
  unfold serial_get_queue
  split_ifs <;> first | rfl | exact absurd (by assumption) hne

theorem get_head {b : RingBuffer} (hne : b.head ≠ b.tail) :
    (serial_get_queue b).2.head =
      if b.head = b.cap - 1 then 0 else b.head + 1 := by
  unfold serial_get_queue
  split_ifs <;> first | rfl | exact absurd (by assumption) hne

theorem get_qstate {b : RingBuffer} (hwf : b.WF) (hne : b.head ≠ b.tail) :
    serial_get_qstate (serial_get_queue b).2 = serial_get_qstate b - 1 := by
  obtain ⟨h1, h2⟩ := hwf
  simp only [serial_get_queue, serial_get_qstate]
  split_ifs at * <;> simp_all <;> omega

theorem get_WF {b : RingBuffer} (hwf : b.WF) :
    (serial_get_queue b).2.WF := by
  obtain ⟨h1, h2⟩ := hwf
  simp only [serial_get_queue, RingBuffer.WF]
  split_ifs <;> constructor <;> first | omega | (simp; omega)

theorem absBuf_get {b : RingBuffer} (hwf : b.WF) (hne : b.head ≠ b.tail) :
    absBuf b = (serial_get_queue b).1 :: absBuf (serial_get_queue b).2 := by
  have h1 := hwf.1
  have h2 := hwf.2
  have hq0 : serial_get_qstate b ≠ 0 := fun h => hne ((qstate_zero_iff hwf).1 h)
  obtain ⟨m, hm⟩ := Nat.exists_eq_succ_of_ne_zero hq0
  have hqg : serial_get_qstate (serial_get_queue b).2 = m := by
    rw [get_qstate hwf hne, hm]
    omega
  unfold absBuf
  rw [hm, hqg, get_cap, get_data, List.range_succ_eq_map, List.map_cons,
    List.map_map]
  congr 1
  · rw [get_val hne]
    simp [h1]
  · apply List.map_congr_left
    intro i hi
    rw [List.mem_range] at hi
    rw [get_head hne]
    unfold serial_get_qstate at hm
    simp only [Function.comp]
    split_ifs at * <;> first | rfl | omega | (congr 1; omega)

theorem runOps_refine (ops : List QOp) :
    ∀ (b : RingBuffer) (q : List Nat), b.WF → absBuf b = q →
    ValidB b.cap q.length ops = true →
    (runOps b ops).2 = (modelRun q ops).2 ∧ (runOps b ops).1.WF ∧
    absBuf (runOps b ops).1 = (modelRun q ops).1 ∧
    (runOps b ops).1.cap = b.cap := by
  induction ops with
  | nil =>
    intro b q hwf habs _
    exact ⟨rfl, hwf, habs, rfl⟩
  | cons op ops ih =>
    intro b q hwf habs hv
    cases op with
    | push d =>
      simp only [ValidB, Bool.and_eq_true, decide_eq_true_eq] at hv
      obtain ⟨hlt, hv⟩ := hv
      have hql : serial_get_qstate b = q.length := by rw [← habs, absBuf_length]
      have hnf : serial_get_qstate b ≠ b.cap - 1 := by omega
      have hwf2 := put_WF d hwf
      have habs2 : absBuf (serial_put_queue b d) = q ++ [d] := by
        rw [absBuf_put d hwf hnf, habs]
      have hv2 : ValidB (serial_put_queue b d).cap (q ++ [d]).length ops = true := by
        rw [put_cap]
        simpa using hv
      obtain ⟨ha, hb, hc, hd2⟩ := ih (serial_put_queue b d) (q ++ [d]) hwf2 habs2 hv2
      refine ⟨?_, ?_, ?_, ?_⟩
      · simpa [runOps, modelRun] using ha
      · simpa [runOps] using hb
      · simpa [runOps, modelRun] using hc
      · simpa [runOps, put_cap] using hd2
    | pop =>
      simp only [ValidB, Bool.and_eq_true, decide_eq_true_eq] at hv
      obtain ⟨hpos, hv⟩ := hv
      have hql : serial_get_qstate b = q.length := by rw [← habs, absBuf_length]
      have hne : b.head ≠ b.tail := by
        intro h
        have := (qstate_zero_iff hwf).2 h
        omega
      have hwf2 := get_WF hwf
      have hcons : q = (serial_get_queue b).1 :: absBuf (serial_get_queue b).2 := by
        rw [← habs]
        exact absBuf_get hwf hne
      have habs2 : absBuf (serial_get_queue b).2 = q.tail := by
        rw [hcons, List.tail_cons]
      have hhead : (serial_get_queue b).1 = q.headD 0 := by
        rw [hcons, List.headD_cons]
      have hv2 : ValidB (serial_get_queue b).2.cap q.tail.length ops = true := by
        rw [get_cap, List.length_tail]
        exact hv
      obtain ⟨ha, hb, hc, hd2⟩ := ih (serial_get_queue b).2 q.tail hwf2 habs2 hv2
      refine ⟨?_, ?_, ?_, ?_⟩
      · simpa [runOps, modelRun, hhead] using ha
      · simpa [runOps] using hb
      · simpa [runOps, modelRun] using hc
      · simpa [runOps, get_cap] using hd2

theorem pushedVals_length (ops : List QOp) :
    (pushedVals ops).length = countPush ops := by
  induction ops with
  | nil => rfl
  | cons op ops ih => cases op <;> simp [pushedVals, countPush, ih]

theorem modelRun_concat (cap : Nat) (ops : List QOp) :
    ∀ q, ValidB cap q.length ops = true →
    (modelRun q ops).2 ++ (modelRun q ops).1 = q ++ pushedVals ops := by
  induction ops with
  | nil =>
    intro q _
    simp [modelRun, pushedVals]
  | cons op ops ih =>
    intro q hv
    cases op with
    | push d =>
      simp only [ValidB, Bool.and_eq_true, decide_eq_true_eq] at hv
      have h := ih (q ++ [d]) (by simpa using hv.2)
      simp only [modelRun, pushedVals]
      rw [h]
      simp
    | pop =>
      simp only [ValidB, Bool.and_eq_true, decide_eq_true_eq] at hv
      obtain ⟨hpos, hv⟩ := hv
      cases q with
      | nil => simp at hpos
      | cons x t =>
        have h := ih t (by simpa using hv)
        simp only [modelRun, pushedVals, List.tail_cons, List.headD_cons]
        simp only [List.cons_append, List.cons.injEq, true_and]
        simpa using h

theorem modelRun_len (cap : Nat) (ops : List QOp) :
    ∀ q, ValidB cap q.length ops = true →
    (modelRun q ops).1.length + countPop ops = q.length + countPush ops := by
  induction ops with
  | nil =>
    intro q _
    simp [modelRun, countPop, countPush]
  | cons op ops ih =>
    intro q hv
    cases op with
    | push d =>
      simp only [ValidB, Bool.and_eq_true, decide_eq_true_eq] at hv
      have h := ih (q ++ [d]) (by simpa using hv.2)
      simp only [modelRun, countPop, countPush]
      simp at h
      omega
    | pop =>
      simp only [ValidB, Bool.and_eq_true, decide_eq_true_eq] at hv
      obtain ⟨hpos, hv⟩ := hv
      cases q with
      | nil => simp at hpos
      | cons x t =>
        have h := ih t (by simpa using hv)
        simp only [modelRun, countPop, countPush]
        simp at h
        simp
        omega

theorem foldl_put_qstate (bs : List Nat) :
    ∀ b : RingBuffer, b.WF →
    serial_get_qstate b + bs.length ≤ b.cap - 1 →
    serial_get_qstate (bs.foldl serial_put_queue b) =
      serial_get_qstate b + bs.length ∧
    (bs.foldl serial_put_queue b).WF ∧
    (bs.foldl serial_put_queue b).cap = b.cap := by
  induction bs with
  | nil =>
    intro b hwf _
    exact ⟨rfl, hwf, rfl⟩
  | cons d bs ih =>
    intro b hwf hroom
    simp only [List.length_cons] at hroom
    have hnf : serial_get_qstate b ≠ b.cap - 1 := by omega
    have hq := put_qstate d hwf hnf
    have hc := put_cap b d
    obtain ⟨ha, hb, hcc⟩ := ih (serial_put_queue b d) (put_WF d hwf)
      (by rw [hq, hc]; omega)
    refine ⟨?_, by simpa [List.foldl_cons] using hb, ?_⟩
    · simp only [List.foldl_cons, List.length_cons]
      rw [ha, hq]
      omega
    · rw [List.foldl_cons, hcc, hc]

/-- C6: starting from the empty ring buffer of capacity `N ≥ 2`, pushing
any `N-1` bytes fills the buffer to occupancy `N-1`, and one further push
of any byte is rejected as a complete no-op (the buffer — storage, head,
tail — is returned unchanged, so the occupancy stays `N-1`). -/
theorem C6_capacity (n : Nat) (hn : 2 ≤ n) (bs : List Nat)
    (hlen : bs.length = n - 1) :
    serial_get_qstate (bs.foldl serial_put_queue (emptyBuf n)) = n - 1 ∧
    ∀ d, serial_put_queue (bs.foldl serial_put_queue (emptyBuf n)) d =
      bs.foldl serial_put_queue (emptyBuf n) := by
  have hwf : (emptyBuf n).WF := by
    constructor <;> simp [emptyBuf] <;> omega
  have hq0 : serial_get_qstate (emptyBuf n) = 0 := rfl
  obtain ⟨ha, hb, hc⟩ := foldl_put_qstate bs (emptyBuf n) hwf
    (by rw [hq0, hlen]; show 0 + (n - 1) ≤ n - 1; omega)
  have hfull : serial_get_qstate (bs.foldl serial_put_queue (emptyBuf n)) =
      (bs.foldl serial_put_queue (emptyBuf n)).cap - 1 := by
    rw [ha, hq0, hc]
    simp [emptyBuf, hlen]
  refine ⟨by rw [ha, hq0, hlen]; omega, fun d => put_full d hfull⟩

/-- C6, witness: capacity 4, pushing the three bytes 1, 2, 3 gives
occupancy 3, and a fourth push of the byte 9 changes nothing. -/
theorem C6_capacity_witness :
    serial_get_qstate ([1, 2, 3].foldl serial_put_queue (emptyBuf 4)) = 3 ∧
      serial_put_queue ([1, 2, 3].foldl serial_put_queue (emptyBuf 4)) 9 =
        [1, 2, 3].foldl serial_put_queue (emptyBuf 4) := by
  have h := C6_capacity 4 (by decide) [1, 2, 3] (by decide)
  exact ⟨h.1, h.2 9⟩

/-- C7: for every sequence of pushes and pops that stays within capacity
(no push on a full buffer, no pop on an empty one) against an initially
empty buffer of capacity `N ≥ 2`, the popped bytes are exactly the first
`countPop` pushed bytes in push order (FIFO), and the final occupancy
equals pushes minus pops — regardless of how often head and tail wrapped
around the storage. -/
theorem C7_fifo (n : Nat) (hn : 2 ≤ n) (ops : List QOp)
    (hv : ValidB n 0 ops = true) :
    (runOps (emptyBuf n) ops).2 = (pushedVals ops).take (countPop ops) ∧
    serial_get_qstate (runOps (emptyBuf n) ops).1 =
      countPush ops - countPop ops := by
  have hwf : (emptyBuf n).WF := by
    constructor <;> simp [emptyBuf] <;> omega
  have habs : absBuf (emptyBuf n) = [] := rfl
  have hv0 : ValidB (emptyBuf n).cap ([] : List Nat).length ops = true := by
    simpa [emptyBuf] using hv
  obtain ⟨hpop, hwf2, habs2, hcap⟩ := runOps_refine ops (emptyBuf n) [] hwf habs hv0
  have hconcat := modelRun_concat n ops [] (by simpa using hv)
  have hlen := modelRun_len n ops [] (by simpa using hv)
  simp only [List.nil_append, List.length_nil, Nat.zero_add] at hconcat hlen
  have hl2 : (modelRun [] ops).2.length = countPop ops := by
    have hlc := congrArg List.length hconcat
    simp only [List.length_append, pushedVals_length] at hlc
    omega
  constructor
  · rw [hpop, ← hconcat, ← hl2]
    exact (List.take_left _ _).symm
  · have hq : serial_get_qstate (runOps (emptyBuf n) ops).1 =
        (modelRun [] ops).1.length := by
      rw [← habs2, absBuf_length]
    rw [hq]
    omega

/-- C7, witness: capacity 3 (two usable slots); ten operations whose tail
index wraps the storage end twice; the five pops return the five pushed
bytes in order and the final occupancy is zero. -/
theorem C7_fifo_witness :
    (runOps (emptyBuf 3)
        [QOp.push 1, QOp.push 2, QOp.pop, QOp.push 3, QOp.pop, QOp.pop,
         QOp.push 4, QOp.push 5, QOp.pop, QOp.pop]).2 =
      (pushedVals
        [QOp.push 1, QOp.push 2, QOp.pop, QOp.push 3, QOp.pop, QOp.pop,
         QOp.push 4, QOp.push 5, QOp.pop, QOp.pop]).take
        (countPop
          [QOp.push 1, QOp.push 2, QOp.pop, QOp.push 3, QOp.pop, QOp.pop,
           QOp.push 4, QOp.push 5, QOp.pop, QOp.pop]) ∧
    serial_get_qstate
        (runOps (emptyBuf 3)
          [QOp.push 1, QOp.push 2, QOp.pop, QOp.push 3, QOp.pop, QOp.pop,
           QOp.push 4, QOp.push 5, QOp.pop, QOp.pop]).1 =
      countPush
          [QOp.push 1, QOp.push 2, QOp.pop, QOp.push 3, QOp.pop, QOp.pop,
           QOp.push 4, QOp.push 5, QOp.pop, QOp.pop] -
        countPop
          [QOp.push 1, QOp.push 2, QOp.pop, QOp.push 3, QOp.pop, QOp.pop,
           QOp.push 4, QOp.push 5, QOp.pop, QOp.pop] :=
  C7_fifo 3 (by decide)
    [QOp.push 1, QOp.push 2, QOp.pop, QOp.push 3, QOp.pop, QOp.pop,
     QOp.push 4, QOp.push 5, QOp.pop, QOp.pop] (by decide)

theorem commandScanAux_eq (ts : List (List Nat)) (hne : ts ≠ [])
    (i : Nat) (cmd : List Nat) (bc last : Nat) :
    commandScanAux ts i cmd bc last =
      match findTok ts i cmd with
      | some j => (j, bc)
      | none => (COMMAND_NOT_FOUND, last) := by
  induction ts generalizing i with
  | nil => exact absurd rfl hne
  | cons t rest ih =>
    by_cases ht : t = cmd
    · simp [commandScanAux, findTok, ht]
    · by_cases hr : rest = []
      · subst hr
        simp [commandScanAux, findTok, ht]
      · simp only [commandScanAux, findTok, if_neg ht, if_neg hr]
        exact ih hr (i + 1)

theorem findTok_lt (ts : List (List Nat)) :
    ∀ (i j : Nat) (cmd : List Nat), findTok ts i cmd = some j →
      j < i + ts.length := by
  induction ts with
  | nil => intro i j cmd h; simp [findTok] at h
  | cons t rest ih =>
    intro i j cmd h
    by_cases ht : t = cmd
    · simp [findTok, ht] at h
      simp [← h]
    · simp only [findTok, if_neg ht] at h
      have := ih (i + 1) j cmd h
      simp only [List.length_cons]
      omega

/-- C10: `last_bioloid_command` receives the old `bioloid_command` exactly
when the frame's token is matched directly by the table scan; when the
frame resolves through the motion-page special case or to the not-found
ordinal, `last_bioloid_command` keeps its prior value while
`bioloid_command` is still overwritten (to the motion-page or not-found
ordinal). -/
theorem C10_previous_command (s : SysState) (h : ¬s.flag_receive_ready = 0) :
    (match findTok COMMANDSTR_POINTER 0 (commandToken s.buf) with
      | some i =>
        (SerialReceiveCommand s).1.last_bioloid_command = s.bioloid_command ∧
          (SerialReceiveCommand s).1.bioloid_command = i
      | none =>
        (SerialReceiveCommand s).1.last_bioloid_command =
            s.last_bioloid_command ∧
          ((SerialReceiveCommand s).1.bioloid_command = COMMAND_MOTIONPAGE ∨
            (SerialReceiveCommand s).1.bioloid_command = COMMAND_NOT_FOUND)) := by
  have htab : (COMMANDSTR_POINTER : List (List Nat)) ≠ [] := by decide
  have hscan := commandScanAux_eq COMMANDSTR_POINTER htab 0 (commandToken s.buf)
    s.bioloid_command s.last_bioloid_command
  rcases hfind : findTok COMMANDSTR_POINTER 0 (commandToken s.buf) with _ | j
  · rw [hfind] at hscan
    simp only [SerialReceiveCommand, if_neg h, commandToken] at *
    rw [hscan]
    simp only [motionPageCheck]
    split_ifs <;> simp [COMMAND_NOT_FOUND, COMMAND_MOTIONPAGE]
  · rw [hfind] at hscan
    have hj : j < 20 := by
      have := findTok_lt COMMANDSTR_POINTER 0 j (commandToken s.buf) hfind
      simpa [COMMANDSTR_POINTER] using this
    simp only [SerialReceiveCommand, if_neg h, commandToken] at *
    rw [hscan]
    simp only [motionPageCheck]
    split_ifs <;> simp_all [COMMAND_NOT_FOUND, COMMAND_MOTIONPAGE]

/-- C10, witness: the frame `"WF\r"` produces the direct table match at
ordinal 1, and the old `bioloid_command` (0) moves into
`last_bioloid_command`. -/
theorem C10_previous_command_witness :
    (SerialReceiveCommand (feedBytes initState [87, 70, 13])).1.last_bioloid_command =
        (feedBytes initState [87, 70, 13]).bioloid_command ∧
      (SerialReceiveCommand (feedBytes initState [87, 70, 13])).1.bioloid_command = 1 := by
  have h := C10_previous_command (feedBytes initState [87, 70, 13]) (by decide)
  exact h
end BioloidSerial
